import Mathlib

/-!
Verification of the exam orchestration and scoring engine of the
LLM Multiple-Choice Exam Tester.

The repository ships the presentation layer (`src/ui/app.py`); the core
modules it calls (`src.core.TestRunner`, `src.core.ResultsManager`,
`src.core.DataLoader`, `src.models.OllamaModel`) are not part of the
source tree, so those operations are modelled from the specification
(each such definition carries a doc comment starting with
`Modelled from the spec:`).  Everything taken from `src/ui/app.py`
(the current-test matrix export, the result display, the exam-load
handlers) is embedded directly from that file.
-/

/-! ## Answer extraction (Test Runner, spec section 4.3 step 3) -/

/-- Modelled from the spec: tokenisation of a raw model response into
lower-case alphanumeric whole tokens, used to find a "standalone
occurrence ... as a whole token".  `acc` holds the characters of the
token currently being read, in reverse. -/
def tokenizeAux : List Char → List Char → List String
  | [], acc => if acc = [] then [] else [String.mk acc.reverse]
  | c :: rest, acc =>
      if c.isAlphanum then tokenizeAux rest (c.toLower :: acc)
      else if acc = [] then tokenizeAux rest []
      else String.mk acc.reverse :: tokenizeAux rest []

/-- Modelled from the spec: split a raw response into lower-case whole
tokens at every non-alphanumeric character. -/
def tokenize (s : String) : List String :=
  tokenizeAux s.data []

/-- Modelled from the spec: recognise one of "the four valid letters A-D"
as a whole token, case-insensitively (tokens are already lower-case);
returns the canonical upper-case label. -/
def validLetter (t : String) : Option String :=
  if t = "a" then some "A"
  else if t = "b" then some "B"
  else if t = "c" then some "C"
  else if t = "d" then some "D"
  else none

/-- Modelled from the spec: the explicit marker pattern, "answer: X" or
"answer is X" (case-insensitive), searched over the token stream: an
"answer" token followed (optionally through an "is" token) by a valid
letter token. -/
def markerLetter : List String → Option String
  | [] => none
  | tok :: rest =>
      if tok = "answer" then
        match rest with
        | "is" :: t :: _ =>
            match validLetter t with
            | some l => some l
            | none => markerLetter rest
        | t :: _ =>
            match validLetter t with
            | some l => some l
            | none => markerLetter rest
        | [] => none
      else markerLetter rest

/-- Modelled from the spec: "the first standalone occurrence of one of
the four valid letters as a whole token". -/
def firstLetterToken : List String → Option String
  | [] => none
  | t :: rest =>
      match validLetter t with
      | some l => some l
      | none => firstLetterToken rest

/-- Modelled from the spec: answer extraction scans the raw response for
a single-letter choice using, in priority order, (a) the explicit marker
pattern, (b) the first standalone valid-letter token, (c) otherwise the
unparseable sentinel. -/
def extract_answer (s : String) : String :=
  match markerLetter (tokenize s) with
  | some l => l
  | none =>
      match firstLetterToken (tokenize s) with
      | some l => l
      | none => "UNPARSEABLE"

theorem extract_answer_marker (s : String) (l : String)
    (h : markerLetter (tokenize s) = some l) : extract_answer s = l := by
  unfold extract_answer
  rw [h]

theorem extract_answer_token (s : String) (l : String)
    (hm : markerLetter (tokenize s) = none)
    (ht : firstLetterToken (tokenize s) = some l) : extract_answer s = l := by
  unfold extract_answer
  rw [hm, ht]

/-! ## Data model of a run -/

deriving instance DecidableEq for Except

/-- A multiple-choice question, as loaded from the questions table
(columns `id, question, option_a..option_d`). -/
structure Question where
  id : String
  question : String
  option_a : String
  option_b : String
  option_c : String
  option_d : String
deriving DecidableEq

instance : Inhabited Question :=
  ⟨{ id := "", question := "", option_a := "", option_b := "",
     option_c := "", option_d := "" }⟩

/-- The per-question record produced by the Test Runner, matching the
keys consumed by `src/ui/app.py` (`question_id`, `question`,
`extracted_answer`, `correct_answer`, `is_correct`, `response_time`)
plus the failure reason the spec attaches to a recovered `ask` failure. -/
structure QuestionResult where
  question_id : String
  question : String
  raw_response : String
  extracted_answer : String
  correct_answer : String
  is_correct : Bool
  response_time : Rat
  error : Option String
deriving DecidableEq

instance : Inhabited QuestionResult :=
  ⟨{ question_id := "", question := "", raw_response := "",
     extracted_answer := "", correct_answer := "", is_correct := false,
     response_time := 0, error := none }⟩

/-- Outcome of a single Inference Client `ask` call: raw text plus
elapsed time, or an `InferenceError` with its reason. -/
inductive AskOutcome
  | ok (text : String) (elapsed : Rat)
  | failure (reason : String)
deriving DecidableEq

/-- Upper-case a label character-wise (structural counterpart of the
usual string upper-casing, used for the case-insensitive comparison of
extracted label and answer key). -/
def upperLabel (s : String) : String :=
  String.mk (s.data.map Char.toUpper)

/-- Look up the correct label for a question identifier in the answer
key (an `id, correct_answer` table). -/
def lookupKey (key : List (String × String)) (id : String) : String :=
  ((key.find? (fun kv => decide (kv.1 = id))).map (fun kv => kv.2)).getD ""

/-- Modelled from the spec: score a single question of a run.  On an
`ok` response the answer is extracted and compared case-insensitively
with the answer key; an `ask` failure is recorded as an
unparseable/incorrect result with the failure reason attached. -/
def answer_question (key : List (String × String)) (q : Question)
    (resp : AskOutcome) : QuestionResult :=
  match resp with
  | AskOutcome.ok text elapsed =>
      let ext := extract_answer text
      let corr := lookupKey key q.id
      { question_id := q.id, question := q.question, raw_response := text,
        extracted_answer := ext, correct_answer := corr,
        is_correct := decide (ext = upperLabel corr),
        response_time := elapsed, error := none }
  | AskOutcome.failure reason =>
      { question_id := q.id, question := q.question, raw_response := "",
        extracted_answer := "UNPARSEABLE",
        correct_answer := lookupKey key q.id, is_correct := false,
        response_time := 0, error := some reason }

/-- Modelled from the spec: the Test Runner's question loop — one `ask`
per question in exam order, accumulating the result records and the
running count of correct answers. -/
def run_loop (key : List (String × String)) (ask : Question → AskOutcome) :
    List Question → List QuestionResult × Nat
  | [] => ([], 0)
  | q :: qs =>
      let r := answer_question key q (ask q)
      let rest := run_loop key ask qs
      (r :: rest.1, (if r.is_correct then 1 else 0) + rest.2)

/-- Modelled from the spec: `TestRunner.run_test` (the core module is
not under `src/`).  If the Inference Client is unreachable before any
question completes the run fails fast with `ServiceUnavailableError`
and no report is produced; otherwise every question is processed and
the aggregate score is correct-count / total-count × 100. -/
def run_test (reachable : Bool) (questions : List Question)
    (key : List (String × String)) (ask : Question → AskOutcome) :
    Except String (List QuestionResult × Rat) :=
  if reachable then
    let outcome := run_loop key ask questions
    Except.ok (outcome.1, (outcome.2 : Rat) / (questions.length : Rat) * 100)
  else Except.error "ServiceUnavailableError"

/-- The aggregate-score formula of the spec, as a function of the
recorded results. -/
def run_score (results : List QuestionResult) : Rat :=
  (results.countP (fun r => r.is_correct) : Rat) / (results.length : Rat) * 100

theorem run_loop_fst (key : List (String × String))
    (ask : Question → AskOutcome) (qs : List Question) :
    (run_loop key ask qs).1 = qs.map (fun q => answer_question key q (ask q)) := by
  induction qs with
  | nil => rfl
  | cons q qs ih => simp [run_loop, ih]

theorem run_loop_snd (key : List (String × String))
    (ask : Question → AskOutcome) (qs : List Question) :
    (run_loop key ask qs).2 = (run_loop key ask qs).1.countP (fun r => r.is_correct) := by
  induction qs with
  | nil => rfl
  | cons q qs ih =>
      simp only [run_loop, List.countP_cons, ih]
      cases h : (answer_question key q (ask q)).is_correct <;> simp [Nat.add_comm]

theorem run_test_ok_inv (reachable : Bool) (qs : List Question)
    (key : List (String × String)) (ask : Question → AskOutcome)
    (results : List QuestionResult) (score : Rat)
    (h : run_test reachable qs key ask = Except.ok (results, score)) :
    reachable = true ∧
    results = qs.map (fun q => answer_question key q (ask q)) ∧
    results.length = qs.length ∧
    score = (results.countP (fun r => r.is_correct) : Rat) / (qs.length : Rat) * 100 := by
  cases hr : reachable with
  | false => rw [hr] at h; simp [run_test] at h
  | true =>
      rw [hr] at h
      simp only [run_test, if_pos] at h
      obtain ⟨h1, h2⟩ := Prod.mk.injEq .. ▸ (Except.ok.injEq .. ▸ h)
      refine ⟨rfl, ?_, ?_, ?_⟩
      · rw [← h1, run_loop_fst]
      · rw [← h1, run_loop_fst, List.length_map]
      · rw [← h2, ← h1, run_loop_snd]

/-! ## Claim C1: extraction priority order -/

/-- C1: answer extraction selects the label by priority: an explicit
case-insensitive marker pattern ("answer: X" / "answer is X") wins; else
the first standalone whole-token occurrence of one of the four valid
letters A-D; else the unparseable sentinel. -/
theorem extraction_priority (s : String) :
    (∀ l, markerLetter (tokenize s) = some l → extract_answer s = l) ∧
    (markerLetter (tokenize s) = none →
      ∀ l, firstLetterToken (tokenize s) = some l → extract_answer s = l) ∧
    (markerLetter (tokenize s) = none → firstLetterToken (tokenize s) = none →
      extract_answer s = "UNPARSEABLE") := by
  refine ⟨fun l h => extract_answer_marker s l h,
          fun hm l ht => extract_answer_token s l hm ht,
          fun hm ht => ?_⟩
  unfold extract_answer
  rw [hm, ht]

theorem extraction_priority_witness :
    extract_answer "The answer is A" = "A" ∧
    extract_answer "I think C" = "C" ∧
    extract_answer "I am not sure" = "UNPARSEABLE" :=
  ⟨(extraction_priority "The answer is A").1 "A" (by decide),
   (extraction_priority "I think C").2.1 (by decide) "C" (by decide),
   (extraction_priority "I am not sure").2.2 (by decide) (by decide)⟩

/-! ## Claim C2: aggregate score formula (Scenario A data) -/

def scenarioQuestions : List Question :=
  [{ id := "Q1", question := "first question", option_a := "a1",
     option_b := "b1", option_c := "c1", option_d := "d1" },
   { id := "Q2", question := "second question", option_a := "a2",
     option_b := "b2", option_c := "c2", option_d := "d2" }]

def scenarioKey : List (String × String) := [("Q1", "A"), ("Q2", "B")]

def scenarioAsk (q : Question) : AskOutcome :=
  if q.id = "Q1" then AskOutcome.ok "The answer is A" 1
  else AskOutcome.ok "I think C" 2

def scenarioResults : List QuestionResult :=
  [{ question_id := "Q1", question := "first question",
     raw_response := "The answer is A", extracted_answer := "A",
     correct_answer := "A", is_correct := true, response_time := 1,
     error := none },
   { question_id := "Q2", question := "second question",
     raw_response := "I think C", extracted_answer := "C",
     correct_answer := "B", is_correct := false, response_time := 2,
     error := none }]

/-- C2: for every completed run, the aggregate score equals the count of
correct QuestionResults divided by the total number of questions times
100, exactly, with one result per exam question. -/
theorem run_score_counts_every_question (reachable : Bool)
    (qs : List Question) (key : List (String × String))
    (ask : Question → AskOutcome) (results : List QuestionResult) (score : Rat)
    (h : run_test reachable qs key ask = Except.ok (results, score)) :
    score = (results.countP (fun r => r.is_correct) : Rat) / (qs.length : Rat) * 100 ∧
    results.length = qs.length := by
  obtain ⟨-, -, hlen, hscore⟩ := run_test_ok_inv reachable qs key ask results score h
  exact ⟨hscore, hlen⟩

theorem run_score_counts_every_question_witness :
    (50 : Rat) = (scenarioResults.countP (fun r => r.is_correct) : Rat) /
        (scenarioQuestions.length : Rat) * 100 ∧
    scenarioResults.length = scenarioQuestions.length :=
  run_score_counts_every_question true scenarioQuestions scenarioKey
    scenarioAsk scenarioResults 50 (by
      have hloop : run_loop scenarioKey scenarioAsk scenarioQuestions =
          (scenarioResults, 1) := by decide
      have hlen : scenarioQuestions.length = 2 := rfl
      simp [run_test, hloop, hlen]
      norm_num)

/-! ## Claim C3: failure semantics of a run -/

def failQuestions : List Question :=
  [{ id := "Q1", question := "only question", option_a := "a1",
     option_b := "b1", option_c := "c1", option_d := "d1" }]

def failKey : List (String × String) := [("Q1", "A")]

def failAsk (_ : Question) : AskOutcome :=
  AskOutcome.failure "connection refused"

/-- C3: a single `ask` failure does not abort the run — the question is
recorded as an unparseable/incorrect result carrying the failure reason
and the run continues through every question; the run as a whole fails
(ServiceUnavailableError, no partial report) exactly when the Inference
Client is unreachable before any question completes. -/
theorem run_failure_recovery (reachable : Bool) (qs : List Question)
    (key : List (String × String)) (ask : Question → AskOutcome) :
    (reachable = false →
      run_test reachable qs key ask = Except.error "ServiceUnavailableError") ∧
    (reachable = true → ∃ results score,
      run_test reachable qs key ask = Except.ok (results, score) ∧
      results.length = qs.length ∧
      ∀ q, q ∈ qs → ∀ reason, ask q = AskOutcome.failure reason →
        ∃ r, r ∈ results ∧ r.question_id = q.id ∧ r.is_correct = false ∧
          r.extracted_answer = "UNPARSEABLE" ∧ r.error = some reason) := by
  constructor
  · intro hr
    simp [run_test, hr]
  · intro hr
    subst hr
    refine ⟨(run_loop key ask qs).1,
            ((run_loop key ask qs).2 : Rat) / (qs.length : Rat) * 100,
            by simp [run_test], ?_, ?_⟩
    · rw [run_loop_fst, List.length_map]
    · intro q hq reason hfail
      refine ⟨answer_question key q (ask q), ?_, ?_⟩
      · rw [run_loop_fst]
        exact List.mem_map_of_mem _ hq
      · rw [hfail]
        exact ⟨rfl, rfl, rfl, rfl⟩

theorem run_failure_recovery_witness :
    run_test false failQuestions failKey failAsk =
      Except.error "ServiceUnavailableError" ∧
    (∃ results score,
      run_test true failQuestions failKey failAsk = Except.ok (results, score) ∧
      results.length = failQuestions.length ∧
      ∀ q, q ∈ failQuestions → ∀ reason,
        failAsk q = AskOutcome.failure reason →
        ∃ r, r ∈ results ∧ r.question_id = q.id ∧ r.is_correct = false ∧
          r.extracted_answer = "UNPARSEABLE" ∧ r.error = some reason) :=
  ⟨(run_failure_recovery false failQuestions failKey failAsk).1 rfl,
   (run_failure_recovery true failQuestions failKey failAsk).2 rfl⟩

/-! ## Results Store: stored runs and the matrix export -/

/-- Modelled from the spec: keep the first appearance of each identifier
while scanning left to right, skipping identifiers already `seen`. -/
def firstAppearanceScan : List String → List String → List String
  | _, [] => []
  | seen, a :: l =>
      if a ∈ seen then firstAppearanceScan seen l
      else a :: firstAppearanceScan (a :: seen) l

/-- Modelled from the spec: stable order by first appearance expressed
the other way round — keep each identifier and drop all of its later
repeats. -/
def dedupFirst : List String → List String
  | [] => []
  | a :: l => a :: dedupFirst (l.filter (fun b => decide (b ≠ a)))
termination_by l => l.length
decreasing_by
  simp only [List.length_cons]
  exact Nat.lt_succ_of_le (List.length_filter_le _ _)

theorem firstAppearanceScan_mem (seen l : List String) (b : String) :
    b ∈ firstAppearanceScan seen l ↔ b ∈ l ∧ b ∉ seen := by
  induction l generalizing seen with
  | nil => simp [firstAppearanceScan]
  | cons a l ih =>
      simp only [firstAppearanceScan]
      by_cases ha : a ∈ seen
      · rw [if_pos ha, ih]
        constructor
        · exact fun h => ⟨List.mem_cons_of_mem _ h.1, h.2⟩
        · rintro ⟨hb, hs⟩
          rcases List.mem_cons.mp hb with rfl | hb
          · exact absurd ha hs
          · exact ⟨hb, hs⟩
      · rw [if_neg ha]
        simp only [List.mem_cons, ih, not_or]
        constructor
        · rintro (rfl | ⟨hb, hba, hbs⟩)
          · exact ⟨Or.inl rfl, ha⟩
          · exact ⟨Or.inr hb, hbs⟩
        · rintro ⟨rfl | hb, hbs⟩
          · exact Or.inl rfl
          · by_cases hba : b = a
            · exact Or.inl hba
            · exact Or.inr ⟨hb, hba, hbs⟩

theorem firstAppearanceScan_nodup (seen l : List String) :
    (firstAppearanceScan seen l).Nodup := by
  induction l generalizing seen with
  | nil => simp [firstAppearanceScan]
  | cons a l ih =>
      simp only [firstAppearanceScan]
      by_cases ha : a ∈ seen
      · rw [if_pos ha]; exact ih seen
      · rw [if_neg ha]
        refine List.nodup_cons.mpr ⟨?_, ih _⟩
        intro hmem
        exact ((firstAppearanceScan_mem _ _ _).mp hmem).2 (List.mem_cons_self a seen)

theorem firstAppearanceScan_eq_dedupFirst (seen l : List String) :
    firstAppearanceScan seen l =
      dedupFirst (l.filter (fun b => decide (b ∉ seen))) := by
  induction l generalizing seen with
  | nil => simp [firstAppearanceScan, dedupFirst]
  | cons a l ih =>
      simp only [firstAppearanceScan, List.filter_cons]
      by_cases ha : a ∈ seen
      · rw [if_pos ha]
        have hd : decide (a ∉ seen) = false := by simp [ha]
        rw [hd]
        simp only [Bool.false_eq_true, if_false]
        exact ih seen
      · rw [if_neg ha]
        have hd : decide (a ∉ seen) = true := by simp [ha]
        rw [hd]
        simp only [if_true]
        rw [dedupFirst]
        congr 1
        rw [ih (a :: seen), List.filter_filter]
        congr 1
        apply List.filter_congr
        intro b _
        by_cases hba : b = a <;> by_cases hbs : b ∈ seen <;>
          simp [hba, hbs]

/-- A persisted run report, as stored by the Results Store (model,
timestamp, score, per-question detail). -/
structure StoredRun where
  test_id : String
  model : String
  timestamp : Nat
  score_percentage : Rat
  results : List QuestionResult
deriving DecidableEq

instance : Inhabited StoredRun :=
  ⟨{ test_id := "", model := "", timestamp := 0, score_percentage := 0,
     results := [] }⟩

/-- All question identifiers seen across the stored runs, in run order. -/
def seenIds (runs : List StoredRun) : List String :=
  (runs.map (fun r => r.results.map (fun q => q.question_id))).flatten

/-- Modelled from the spec: the matrix column set — the union of all
question identifiers ever seen, stably ordered by first appearance. -/
def allQuestionIds (runs : List StoredRun) : List String :=
  firstAppearanceScan [] (seenIds runs)

/-- The distinct models present in the run collection, in order of first
appearance. -/
def modelsIn (runs : List StoredRun) : List String :=
  firstAppearanceScan [] (runs.map (fun r => r.model))

/-- Pick the run with the greatest timestamp among `r` and the
candidates. -/
def pickLatest (r : StoredRun) : List StoredRun → StoredRun
  | [] => r
  | s :: ss => pickLatest (if r.timestamp ≤ s.timestamp then s else r) ss

/-- Modelled from the spec: "latest" mode keeps, for each distinct model
in order of first appearance, only that model's most recent run. -/
def latestScan : List String → List StoredRun → List StoredRun
  | _, [] => []
  | seen, r :: rs =>
      if r.model ∈ seen then latestScan seen rs
      else pickLatest r (rs.filter (fun s => decide (s.model = r.model))) ::
        latestScan (r.model :: seen) rs

def latest_runs (runs : List StoredRun) : List StoredRun :=
  latestScan [] runs

/-- One row of the wide matrix export: identity columns plus one cell
per question column, `none` meaning a blank cell. -/
structure MatrixRow where
  model : String
  test_id : String
  cells : List (String × Option Nat)
deriving DecidableEq

/-- Modelled from the spec: the matrix row of one stored run — for each
column, 1/0 for a correct/incorrect recorded answer and a blank cell
(`none`) when the run is missing that question. -/
def rowOf (cols : List String) (r : StoredRun) : MatrixRow :=
  { model := r.model, test_id := r.test_id,
    cells := cols.map (fun c =>
      (c, (r.results.find? (fun q => decide (q.question_id = c))).map
            (fun q => if q.is_correct then 1 else 0))) }

/-- Modelled from the spec: `ResultsManager.get_results_matrix` (the
core module is not under `src/`) — "latest" mode has one row per
distinct model (that model's most recent run), "all" mode one row per
stored run, with the same column layout in both modes. -/
def get_results_matrix (mode : String) (runs : List StoredRun) :
    List MatrixRow :=
  (if mode = "latest" then latest_runs runs else runs).map
    (rowOf (allQuestionIds runs))

theorem pickLatest_model (r : StoredRun) (l : List StoredRun)
    (h : ∀ s ∈ l, s.model = r.model) : (pickLatest r l).model = r.model := by
  induction l generalizing r with
  | nil => rfl
  | cons s ss ih =>
      simp only [pickLatest]
      have hbase : (if r.timestamp ≤ s.timestamp then s else r).model = r.model := by
        by_cases hts : r.timestamp ≤ s.timestamp
        · rw [if_pos hts]; exact h s (List.mem_cons_self _ _)
        · rw [if_neg hts]
      calc (pickLatest (if r.timestamp ≤ s.timestamp then s else r) ss).model
          = (if r.timestamp ≤ s.timestamp then s else r).model :=
            ih _ (fun t ht =>
              (h t (List.mem_cons_of_mem _ ht)).trans hbase.symm)
        _ = r.model := hbase

theorem latestScan_map_model (seen : List String) (rs : List StoredRun) :
    (latestScan seen rs).map (fun r => r.model) =
      firstAppearanceScan seen (rs.map (fun r => r.model)) := by
  induction rs generalizing seen with
  | nil => rfl
  | cons r rs ih =>
      simp only [latestScan, List.map_cons, firstAppearanceScan]
      by_cases hm : r.model ∈ seen
      · rw [if_pos hm, if_pos hm]; exact ih seen
      · rw [if_neg hm, if_neg hm]
        simp only [List.map_cons]
        congr 1
        · exact pickLatest_model r _ (fun s hs => by
            have hmem := List.mem_filter.mp hs
            simpa using hmem.2)
        · exact ih (r.model :: seen)

theorem pickLatest_mem (r : StoredRun) (l : List StoredRun) :
    pickLatest r l ∈ r :: l := by
  induction l generalizing r with
  | nil => exact List.mem_cons_self _ _
  | cons s ss ih =>
      simp only [pickLatest]
      rcases List.mem_cons.mp (ih (if r.timestamp ≤ s.timestamp then s else r))
        with he | hm
      · rw [he]
        by_cases hts : r.timestamp ≤ s.timestamp
        · rw [if_pos hts]
          exact List.mem_cons_of_mem _ (List.mem_cons_self _ _)
        · rw [if_neg hts]
          exact List.mem_cons_self _ _
      · exact List.mem_cons_of_mem _ (List.mem_cons_of_mem _ hm)

theorem pickLatest_ge (r : StoredRun) (l : List StoredRun) :
    ∀ s ∈ r :: l, s.timestamp ≤ (pickLatest r l).timestamp := by
  induction l generalizing r with
  | nil =>
      intro s hs
      rcases List.mem_cons.mp hs with rfl | h
      · exact le_refl _
      · cases h
  | cons t ts ih =>
      intro s hs
      simp only [pickLatest]
      have hbase : r.timestamp ≤
            (if r.timestamp ≤ t.timestamp then t else r).timestamp ∧
          t.timestamp ≤ (if r.timestamp ≤ t.timestamp then t else r).timestamp := by
        by_cases hts : r.timestamp ≤ t.timestamp
        · rw [if_pos hts]; exact ⟨hts, le_refl _⟩
        · rw [if_neg hts]; exact ⟨le_refl _, le_of_not_le hts⟩
      have hself := ih (if r.timestamp ≤ t.timestamp then t else r) _
        (List.mem_cons_self _ _)
      rcases List.mem_cons.mp hs with rfl | hs
      · exact le_trans hbase.1 hself
      · rcases List.mem_cons.mp hs with rfl | hs
        · exact le_trans hbase.2 hself
        · exact ih _ s (List.mem_cons_of_mem _ hs)

theorem latestScan_latest (seen : List String) (rs : List StoredRun) :
    ∀ x ∈ latestScan seen rs,
      x ∈ rs ∧ x.model ∉ seen ∧
      ∀ s ∈ rs, s.model = x.model → s.timestamp ≤ x.timestamp := by
  induction rs generalizing seen with
  | nil => intro x hx; cases hx
  | cons r rs ih =>
      intro x hx
      simp only [latestScan] at hx
      by_cases hm : r.model ∈ seen
      · rw [if_pos hm] at hx
        obtain ⟨hmem, hnot, hmax⟩ := ih seen x hx
        refine ⟨List.mem_cons_of_mem _ hmem, hnot, ?_⟩
        intro s hs heq
        rcases List.mem_cons.mp hs with rfl | hs
        · exact absurd (heq ▸ hm) hnot
        · exact hmax s hs heq
      · rw [if_neg hm] at hx
        rcases List.mem_cons.mp hx with he | hx
        · have hfilter : ∀ s ∈ rs.filter (fun s => decide (s.model = r.model)),
              s.model = r.model := by
            intro s hs
            have hmem := List.mem_filter.mp hs
            simpa using hmem.2
          have hxmodel : x.model = r.model := by
            rw [he]
            exact pickLatest_model r _ hfilter
          refine ⟨?_, fun hc => hm (hxmodel ▸ hc), ?_⟩
          · rw [he]
            rcases List.mem_cons.mp (pickLatest_mem r
              (rs.filter (fun s => decide (s.model = r.model)))) with hp | hmem
            · rw [hp]; exact List.mem_cons_self _ _
            · exact List.mem_cons_of_mem _ (List.mem_filter.mp hmem).1
          · intro s hs heq
            rw [he]
            rcases List.mem_cons.mp hs with rfl | hs
            · exact pickLatest_ge s _ s (List.mem_cons_self _ _)
            · refine pickLatest_ge r _ s (List.mem_cons_of_mem _ ?_)
              apply List.mem_filter.mpr
              refine ⟨hs, ?_⟩
              exact decide_eq_true (heq.trans hxmodel)
        · obtain ⟨hmem, hnot, hmax⟩ := ih (r.model :: seen) x hx
          simp only [List.mem_cons, not_or] at hnot
          refine ⟨List.mem_cons_of_mem _ hmem, hnot.2, ?_⟩
          intro s hs heq
          rcases List.mem_cons.mp hs with rfl | hs
          · exact absurd heq.symm hnot.1
          · exact hmax s hs heq

/-! ## Claim C4: row multiplicity of the two matrix modes -/

def mkDemoResult (id : String) (c : Bool) : QuestionResult :=
  { question_id := id, question := id, raw_response := "",
    extracted_answer := "", correct_answer := "", is_correct := c,
    response_time := 1, error := none }

def demoRun1 : StoredRun :=
  { test_id := "t1", model := "m1", timestamp := 1, score_percentage := 50,
    results := [mkDemoResult "Q1" true, mkDemoResult "Q2" false] }

def demoRun2 : StoredRun :=
  { test_id := "t2", model := "m1", timestamp := 2, score_percentage := 100,
    results := [mkDemoResult "Q1" true] }

def demoRun3 : StoredRun :=
  { test_id := "t3", model := "m2", timestamp := 3, score_percentage := 100,
    results := [mkDemoResult "Q2" true, mkDemoResult "Q3" true] }

def demoRuns : List StoredRun := [demoRun1, demoRun2, demoRun3]

/-- C4: the matrix in "latest" mode has exactly one row per distinct
model present in the collection (its rows list the distinct models in
first-appearance order, without repetition), each built from that
model's most recent stored run — a run of the collection whose
timestamp is maximal among the runs of its model — and in "all" mode
exactly one row per stored run, so repeated runs of one model each get
their own row. -/
theorem matrix_row_multiplicity (runs : List StoredRun) :
    (get_results_matrix "all" runs).length = runs.length ∧
    (get_results_matrix "all" runs).map (fun row => row.test_id) =
      runs.map (fun r => r.test_id) ∧
    (get_results_matrix "latest" runs).map (fun row => row.model) =
      modelsIn runs ∧
    (modelsIn runs).Nodup ∧
    (∀ m, m ∈ modelsIn runs ↔ m ∈ runs.map (fun r => r.model)) ∧
    (∀ row, row ∈ get_results_matrix "latest" runs →
      ∃ r, r ∈ runs ∧ row = rowOf (allQuestionIds runs) r ∧
        row.model = r.model ∧
        ∀ s ∈ runs, s.model = r.model → s.timestamp ≤ r.timestamp) := by
  have hall : get_results_matrix "all" runs =
      runs.map (rowOf (allQuestionIds runs)) := by
    unfold get_results_matrix
    rw [if_neg (by decide)]
  have hlat : get_results_matrix "latest" runs =
      (latest_runs runs).map (rowOf (allQuestionIds runs)) := by
    unfold get_results_matrix
    rw [if_pos rfl]
  refine ⟨?_, ?_, ?_, firstAppearanceScan_nodup [] _, ?_, ?_⟩
  · rw [hall, List.length_map]
  · rw [hall, List.map_map]; rfl
  · rw [hlat, List.map_map]
    exact latestScan_map_model [] runs
  · intro m
    rw [modelsIn, firstAppearanceScan_mem]
    simp
  · intro row hrow
    rw [hlat] at hrow
    obtain ⟨x, hx, rfl⟩ := List.mem_map.mp hrow
    obtain ⟨hmem, -, hmax⟩ := latestScan_latest [] runs x hx
    exact ⟨x, hmem, rfl, rfl, hmax⟩

theorem matrix_row_multiplicity_witness :
    ((get_results_matrix "all" demoRuns).length = 3 ∧
      (get_results_matrix "latest" demoRuns).map (fun row => row.model) =
        ["m1", "m2"]) ∧
    (∃ r, r ∈ demoRuns ∧
      rowOf (allQuestionIds demoRuns) demoRun2 =
        rowOf (allQuestionIds demoRuns) r ∧
      (rowOf (allQuestionIds demoRuns) demoRun2).model = r.model ∧
      ∀ s ∈ demoRuns, s.model = r.model → s.timestamp ≤ r.timestamp) := by
  have h := matrix_row_multiplicity demoRuns
  refine ⟨⟨by rw [h.1]; rfl, by rw [h.2.2.1]; decide⟩, ?_⟩
  exact h.2.2.2.2.2 (rowOf (allQuestionIds demoRuns) demoRun2) (by decide)

/-! ## Claim C6: matrix column set, order and blank cells -/

/-- C6: in every matrix export the column set is the union of all
question identifiers ever seen across the stored runs, ordered stably by
first appearance (equivalently: dropping every later repeat), and a run
missing a question leaves that cell blank (`none`) rather than 0. -/
theorem matrix_columns (mode : String) (runs : List StoredRun) :
    (∀ row, row ∈ get_results_matrix mode runs →
      row.cells.map Prod.fst = allQuestionIds runs) ∧
    (allQuestionIds runs).Nodup ∧
    (∀ q, q ∈ allQuestionIds runs ↔ q ∈ seenIds runs) ∧
    allQuestionIds runs = dedupFirst (seenIds runs) ∧
    (∀ (r : StoredRun) (q : String), q ∈ allQuestionIds runs →
      r.results.find? (fun x => decide (x.question_id = q)) = none →
      (q, (none : Option Nat)) ∈ (rowOf (allQuestionIds runs) r).cells) ∧
    (∀ row, row ∈ get_results_matrix mode runs →
      ∃ r, row = rowOf (allQuestionIds runs) r) := by
  have hrow : ∀ (r : StoredRun),
      (rowOf (allQuestionIds runs) r).cells.map Prod.fst =
        allQuestionIds runs := by
    intro r
    simp only [rowOf, List.map_map]
    exact List.map_id _
  refine ⟨?_, firstAppearanceScan_nodup [] _, ?_, ?_, ?_, ?_⟩
  · intro row hmem
    obtain ⟨r, -, rfl⟩ := List.mem_map.mp hmem
    exact hrow r
  · intro q
    rw [allQuestionIds, firstAppearanceScan_mem]
    simp
  · rw [allQuestionIds, firstAppearanceScan_eq_dedupFirst]
    congr 1
    apply List.filter_eq_self.mpr
    intro a _
    simp
  · intro r q hq hfind
    have hmem := List.mem_map_of_mem (fun c =>
      (c, (r.results.find? (fun x => decide (x.question_id = c))).map
            (fun x => if x.is_correct then 1 else 0))) hq
    simp only [hfind] at hmem
    simpa [rowOf] using hmem
  · intro row hmem
    obtain ⟨r, -, rfl⟩ := List.mem_map.mp hmem
    exact ⟨r, rfl⟩

theorem matrix_columns_witness :
    (rowOf (allQuestionIds demoRuns) demoRun3).cells.map Prod.fst =
      allQuestionIds demoRuns ∧
    ("Q1", (none : Option Nat)) ∈ (rowOf (allQuestionIds demoRuns) demoRun3).cells := by
  have h := matrix_columns "all" demoRuns
  constructor
  · exact h.1 _ (by decide)
  · exact h.2.2.2.2.1 demoRun3 "Q1" (by decide) (by decide)

/-! ## Current-test matrix export (`display_current_results`,
`src/ui/app.py` lines 322-358) -/

/-- Python's `str.replace("Q", "")` on a question identifier: every
capital Q character is removed. -/
def removeQ (s : String) : String :=
  String.mk (s.data.filter (fun c => decide (c ≠ 'Q')))

def isDigitChar (c : Char) : Bool :=
  decide ('0' ≤ c) && decide (c ≤ '9')

def digitsToNat (l : List Char) : Nat :=
  l.foldl (fun a c => a * 10 + (c.toNat - '0'.toNat)) 0

/-- Continuation of a Python digit run after its first digit: digits,
with a single underscore allowed only between two digits (PEP 515 —
`int("1_0") == 10`, while `"1_"`, `"_1"` and `"1__0"` are rejected). -/
def pyDigitsAux : List Char → Bool
  | [] => true
  | '_' :: rest =>
      match rest with
      | [] => false
      | c :: rest2 => isDigitChar c && pyDigitsAux rest2
  | c :: rest => isDigitChar c && pyDigitsAux rest

/-- The digit part of a Python base-10 integer literal: a non-empty
digit run, optionally grouped by single underscores between digits. -/
def pyDigitPart : List Char → Bool
  | [] => false
  | c :: rest => isDigitChar c && pyDigitsAux rest

/-- Python's `int(s)` on a string: optional surrounding whitespace, an
optional sign, then a non-empty digit run optionally grouped by single
underscores between digits (PEP 515); anything else raises ValueError
(`none` here).  The model covers ASCII strings — the alphabet of this
repository's question identifiers; non-ASCII Unicode digit variants are
outside its scope. -/
def pythonInt (s : String) : Option Int :=
  let t := ((s.data.dropWhile Char.isWhitespace).reverse.dropWhile
    Char.isWhitespace).reverse
  let digitsOf := fun (l : List Char) =>
    digitsToNat (l.filter (fun c => decide (c ≠ '_')))
  match t with
  | '-' :: rest =>
      if pyDigitPart rest then some (-(digitsOf rest : Int)) else none
  | '+' :: rest =>
      if pyDigitPart rest then some (digitsOf rest : Int) else none
  | rest =>
      if pyDigitPart rest then some (digitsOf rest : Int) else none

/-- The column key a QuestionResult gets in the current-test matrix row:
`str(int(question_id.replace("Q", "")))`, when defined. -/
def cellKey (r : QuestionResult) : Option String :=
  (pythonInt (removeQ r.question_id)).map (fun n => toString n)

/-- Python dict assignment `d[k] = v`: overwrite in place if the key is
present, else append the new key. -/
def upsert (k : String) (v : Nat) :
    List (String × Nat) → List (String × Nat)
  | [] => [(k, v)]
  | kv :: rest =>
      if kv.1 = k then (kv.1, v) :: rest else kv :: upsert k v rest

/-- The loop `for idx, result in enumerate(test_data['results'])` of
`display_current_results`: each result adds (or overwrites) the cell
`str(int(question_id.replace("Q", ""))) -> 1/0`; a malformed identifier
raises ValueError. -/
def addCells : List QuestionResult → List (String × Nat) →
    Except String (List (String × Nat))
  | [], acc => Except.ok acc
  | r :: rest, acc =>
      match pythonInt (removeQ r.question_id) with
      | none => Except.error "ValueError"
      | some n =>
          addCells rest (upsert (toString n) (if r.is_correct then 1 else 0) acc)

/-- The matrix row built by `display_current_results`: fixed columns
Model / Type / RAG / 1by1 / Total followed by the per-question 1/0
cells. -/
structure CurrentMatrixRow where
  model : String
  typeCol : String
  rag : String
  oneByOne : String
  total : Nat
  cells : List (String × Nat)
deriving DecidableEq

/-- The current-test matrix export of `display_current_results`
(`src/ui/app.py` lines 337-350): `Total` is the number of correct
results and each result contributes a 1/0 cell keyed by
`str(int(question_id.replace("Q", "")))`. -/
def current_matrix_row (modelName : String)
    (results : List QuestionResult) : Except String CurrentMatrixRow :=
  (addCells results []).map (fun cells =>
    { model := modelName, typeCol := "Lokaal", rag := "No",
      oneByOne := "Yes",
      total := results.countP (fun r => r.is_correct), cells := cells })

theorem upsert_fresh (k : String) (v : Nat) (acc : List (String × Nat))
    (h : k ∉ acc.map Prod.fst) : upsert k v acc = acc ++ [(k, v)] := by
  induction acc with
  | nil => rfl
  | cons kv rest ih =>
      simp only [List.map_cons, List.mem_cons, not_or] at h
      simp only [upsert]
      rw [if_neg (fun he => h.1 he.symm), ih h.2]
      simp

theorem addCells_sum (results : List QuestionResult) :
    ∀ acc cells, addCells results acc = Except.ok cells →
      (results.map cellKey).Nodup →
      (∀ r ∈ results, ∀ s, cellKey r = some s → s ∉ acc.map Prod.fst) →
      (cells.map Prod.snd).sum =
        (acc.map Prod.snd).sum + results.countP (fun r => r.is_correct) := by
  induction results with
  | nil =>
      intro acc cells h _ _
      simp only [addCells, Except.ok.injEq] at h
      subst h
      simp
  | cons r rest ih =>
      intro acc cells h hnodup hfresh
      cases hp : pythonInt (removeQ r.question_id) with
      | none => simp [addCells, hp] at h
      | some n =>
          simp only [addCells, hp] at h
          have hk : cellKey r = some (toString n) := by simp [cellKey, hp]
          have hkfresh : (toString n) ∉ acc.map Prod.fst :=
            hfresh r (List.mem_cons_self _ _) _ hk
          rw [upsert_fresh _ _ _ hkfresh] at h
          obtain ⟨hnotmem, hrestnodup⟩ :=
            List.nodup_cons.mp (List.map_cons cellKey r rest ▸ hnodup)
          have hrestfresh : ∀ s ∈ rest, ∀ t, cellKey s = some t →
              t ∉ (acc ++ [(toString n, if r.is_correct then 1 else 0)]).map
                    Prod.fst := by
            intro s hs t ht
            rw [List.map_append]
            intro hmem
            rcases List.mem_append.mp hmem with hmem | hmem
            · exact hfresh s (List.mem_cons_of_mem _ hs) t ht hmem
            · have htn : t = toString n := by simpa using hmem
              apply hnotmem
              rw [hk, ← htn, ← ht]
              exact List.mem_map_of_mem cellKey hs
          have hsum := ih _ cells h hrestnodup hrestfresh
          rw [hsum, List.map_append, List.sum_append, List.countP_cons]
          cases hr : r.is_correct
          all_goals simp [hr]
          all_goals omega

theorem countP_disjoint {α : Type} (p q : α → Bool) (l : List α)
    (h : ∀ a ∈ l, ¬(p a = true ∧ q a = true)) :
    l.countP (fun a => p a || q a) = l.countP p + l.countP q := by
  induction l with
  | nil => rfl
  | cons a l ih =>
      simp only [List.countP_cons]
      rw [ih (fun b hb => h b (List.mem_cons_of_mem _ hb))]
      have hna := h a (List.mem_cons_self _ _)
      cases hp : p a <;> cases hq : q a <;>
        simp [hp, hq] at hna ⊢ <;> omega

theorem find?_countP (results : List QuestionResult) (c : String)
    (hids : (results.map (fun q => q.question_id)).Nodup) :
    ∀ q0, results.find? (fun q => decide (q.question_id = c)) = some q0 →
      results.countP (fun q => q.is_correct && decide (q.question_id = c)) =
        (if q0.is_correct then 1 else 0) := by
  induction results with
  | nil => intro q0 h; cases h
  | cons r rest ih =>
      intro q0 h
      simp only [List.map_cons, List.nodup_cons] at hids
      by_cases hc : r.question_id = c
      · rw [List.find?_cons_of_pos _ (by simp [hc])] at h
        obtain rfl := Option.some.inj h
        rw [List.countP_cons]
        have hrest0 : rest.countP
            (fun q => q.is_correct && decide (q.question_id = c)) = 0 := by
          apply List.countP_eq_zero.mpr
          intro q hq
          simp only [Bool.and_eq_true, decide_eq_true_eq, not_and]
          intro _ hqc
          exact hids.1 (hc ▸ hqc ▸ List.mem_map_of_mem _ hq)
        rw [hrest0]
        cases hcor : r.is_correct <;> simp [hcor, hc]
      · rw [List.find?_cons_of_neg _ (by simp [hc])] at h
        rw [List.countP_cons, ih hids.2 q0 h]
        simp [hc]

theorem cell_sum_aux (results : List QuestionResult)
    (hids : (results.map (fun q => q.question_id)).Nodup) :
    ∀ cols : List String, cols.Nodup →
      ((cols.map (fun c =>
          (results.find? (fun q => decide (q.question_id = c))).map
            (fun q => if q.is_correct then 1 else 0))).filterMap
        (fun o => o)).sum =
        results.countP
          (fun q => q.is_correct && decide (q.question_id ∈ cols)) := by
  intro cols
  induction cols with
  | nil =>
      intro _
      simp only [List.map_nil, List.filterMap_nil, List.sum_nil]
      symm
      apply List.countP_eq_zero.mpr
      intro q hq
      simp
  | cons c cols ih =>
      intro hnodup
      obtain ⟨hc, hcols⟩ := List.nodup_cons.mp hnodup
      simp only [List.map_cons, List.filterMap_cons]
      cases hf : results.find? (fun q => decide (q.question_id = c)) with
      | none =>
          simp only [Option.map_none']
          rw [ih hcols]
          apply List.countP_congr
          intro q hq
          have hqc : ¬ q.question_id = c := by
            have := List.find?_eq_none.mp hf q hq
            simpa using this
          simp [List.mem_cons, hqc]
      | some q0 =>
          simp only [Option.map_some', List.sum_cons]
          rw [ih hcols]
          have hsplit : results.countP
              (fun q => q.is_correct && decide (q.question_id ∈ c :: cols)) =
              results.countP
                (fun q => q.is_correct && decide (q.question_id = c)) +
              results.countP
                (fun q => q.is_correct && decide (q.question_id ∈ cols)) := by
            rw [← countP_disjoint]
            · apply List.countP_congr
              intro q hq
              by_cases h1 : q.question_id = c
              · by_cases h2 : q.question_id ∈ cols
                · exact absurd (h1 ▸ h2) hc
                · cases hcor : q.is_correct <;> simp [h1, h2, hcor]
              · by_cases h2 : q.question_id ∈ cols <;>
                  cases hcor : q.is_correct <;> simp [h1, h2, hcor]
            · intro q hq hboth
              simp only [Bool.and_eq_true, decide_eq_true_eq] at hboth
              exact hc (hboth.1.2 ▸ hboth.2.2)
          rw [hsplit, find?_countP results c hids q0 hf]

theorem rowOf_cell_sum (cols : List String) (r : StoredRun)
    (hcols : cols.Nodup)
    (hids : (r.results.map (fun q => q.question_id)).Nodup)
    (hsub : ∀ q ∈ r.results, q.question_id ∈ cols) :
    ((rowOf cols r).cells.filterMap (fun p => p.2)).sum =
      r.results.countP (fun q => q.is_correct) := by
  have haux := cell_sum_aux r.results hids cols hcols
  have hcells : ((rowOf cols r).cells.filterMap (fun p => p.2)).sum =
      ((cols.map (fun c =>
          (r.results.find? (fun q => decide (q.question_id = c))).map
            (fun q => if q.is_correct then 1 else 0))).filterMap
        (fun o => o)).sum := by
    simp only [rowOf, List.filterMap_map]
    rfl
  rw [hcells, haux]
  apply List.countP_congr
  intro q hq
  simp [hsub q hq]

theorem mem_allQuestionIds (runs : List StoredRun) (r : StoredRun)
    (hr : r ∈ runs) (q : QuestionResult) (hq : q ∈ r.results) :
    q.question_id ∈ allQuestionIds runs := by
  rw [allQuestionIds, firstAppearanceScan_mem]
  refine ⟨?_, by simp⟩
  rw [seenIds]
  apply List.mem_flatten.mpr
  exact ⟨r.results.map (fun x => x.question_id),
    List.mem_map_of_mem _ hr, List.mem_map_of_mem _ hq⟩

/-- C5 (amended): for every row of the stored-runs matrix export (both
modes, cells keyed by the raw question identifier), the sum of the
non-blank 1/0 cells equals the correctness count of the run the row was
built from (whose identifiers are unique within the run, per the exam
invariant), and dividing by the run's question count and multiplying by
100 reproduces that run's score; for the current-test export, whose
keys pass through `int(question_id.replace("Q", ""))`, the same holds
whenever the derived keys are pairwise distinct — the Total column then
equals the sum of the per-question cells. -/
theorem matrix_total_roundtrip (m : String) (results : List QuestionResult)
    (row : CurrentMatrixRow)
    (hok : current_matrix_row m results = Except.ok row)
    (hkeys : (results.map cellKey).Nodup) :
    (row.cells.map Prod.snd).sum = results.countP (fun r => r.is_correct) ∧
    row.total = (row.cells.map Prod.snd).sum ∧
    ((row.cells.map Prod.snd).sum : Rat) / (results.length : Rat) * 100 =
      run_score results ∧
    (∀ reachable qs key ask score,
      run_test reachable qs key ask = Except.ok (results, score) →
      ((row.cells.map Prod.snd).sum : Rat) / (qs.length : Rat) * 100 = score) ∧
    (∀ (mode : String) (runs : List StoredRun) (mrow : MatrixRow),
      mrow ∈ get_results_matrix mode runs →
      ∃ r, r ∈ runs ∧ mrow = rowOf (allQuestionIds runs) r ∧
        ((r.results.map (fun q => q.question_id)).Nodup →
          (mrow.cells.filterMap (fun p => p.2)).sum =
            r.results.countP (fun q => q.is_correct) ∧
          (((mrow.cells.filterMap (fun p => p.2)).sum : Nat) : Rat) /
            (r.results.length : Rat) * 100 = run_score r.results)) := by
  cases hcells : addCells results [] with
  | error e =>
      rw [current_matrix_row, hcells] at hok
      cases hok
  | ok cells =>
      rw [current_matrix_row, hcells] at hok
      simp only [Except.map] at hok
      obtain rfl := (Except.ok.inj hok).symm
      have hsum := addCells_sum results [] cells hcells hkeys
        (by intro r hr s hs; simp)
      simp only [List.map_nil, List.sum_nil, Nat.zero_add] at hsum
      refine ⟨hsum, hsum.symm, ?_, ?_, ?_⟩
      · unfold run_score
        rw [hsum]
      · intro reachable qs key ask score hrun
        obtain ⟨-, -, -, hscore⟩ :=
          run_test_ok_inv reachable qs key ask results score hrun
        rw [hscore, hsum]
      · intro mode runs mrow hmrow
        have hbase : ∃ r, r ∈ runs ∧ mrow = rowOf (allQuestionIds runs) r := by
          unfold get_results_matrix at hmrow
          by_cases hmode : mode = "latest"
          · rw [if_pos hmode] at hmrow
            obtain ⟨x, hx, rfl⟩ := List.mem_map.mp hmrow
            exact ⟨x, (latestScan_latest [] runs x hx).1, rfl⟩
          · rw [if_neg hmode] at hmrow
            obtain ⟨x, hx, rfl⟩ := List.mem_map.mp hmrow
            exact ⟨x, hx, rfl⟩
        obtain ⟨r, hr, rfl⟩ := hbase
        refine ⟨r, hr, rfl, ?_⟩
        intro hidsnodup
        have hsum2 := rowOf_cell_sum (allQuestionIds runs) r
          (firstAppearanceScan_nodup [] _) hidsnodup
          (fun q hq => mem_allQuestionIds runs r hr q hq)
        refine ⟨hsum2, ?_⟩
        unfold run_score
        rw [hsum2]

def roundtripResults : List QuestionResult :=
  [mkDemoResult "Q1" true, mkDemoResult "Q2" false]

def roundtripRow : CurrentMatrixRow :=
  { model := "m", typeCol := "Lokaal", rag := "No", oneByOne := "Yes",
    total := 1, cells := [("1", 1), ("2", 0)] }

theorem matrix_total_roundtrip_witness :
    (roundtripRow.cells.map Prod.snd).sum =
      roundtripResults.countP (fun r => r.is_correct) ∧
    roundtripRow.total = (roundtripRow.cells.map Prod.snd).sum ∧
    ((roundtripRow.cells.map Prod.snd).sum : Rat) /
        (roundtripResults.length : Rat) * 100 = run_score roundtripResults ∧
    (∀ reachable qs key ask score,
      run_test reachable qs key ask = Except.ok (roundtripResults, score) →
      ((roundtripRow.cells.map Prod.snd).sum : Rat) / (qs.length : Rat) * 100 =
        score) ∧
    (∃ r, r ∈ demoRuns ∧
      rowOf (allQuestionIds demoRuns) demoRun1 =
        rowOf (allQuestionIds demoRuns) r ∧
      ((r.results.map (fun q => q.question_id)).Nodup →
        ((rowOf (allQuestionIds demoRuns) demoRun1).cells.filterMap
            (fun p => p.2)).sum =
          r.results.countP (fun q => q.is_correct) ∧
        ((((rowOf (allQuestionIds demoRuns) demoRun1).cells.filterMap
            (fun p => p.2)).sum : Nat) : Rat) /
          (r.results.length : Rat) * 100 = run_score r.results)) := by
  have h := matrix_total_roundtrip "m" roundtripResults roundtripRow
    (by decide) (by decide)
  exact ⟨h.1, h.2.1, h.2.2.1, h.2.2.2.1,
    h.2.2.2.2 "all" demoRuns (rowOf (allQuestionIds demoRuns) demoRun1)
      (by decide)⟩

def collideResults : List QuestionResult :=
  [mkDemoResult "Q1" true, mkDemoResult "1Q" true]

def collideRow : CurrentMatrixRow :=
  { model := "m", typeCol := "Lokaal", rag := "No", oneByOne := "Yes",
    total := 2, cells := [("1", 1)] }

/-- C5 counterexample: the distinct identifiers "Q1" and "1Q" both yield
the column key "1" after `replace("Q", "")`, so the second cell
overwrites the first and the exported row's Total column (2) is not the
sum of its per-question cells (1). -/
theorem matrix_total_roundtrip_cex :
    current_matrix_row "m" collideResults = Except.ok collideRow ∧
    collideRow.total = 2 ∧
    (collideRow.cells.map Prod.snd).sum = 1 ∧
    collideRow.total ≠ (collideRow.cells.map Prod.snd).sum :=
  ⟨by decide, by decide, by decide, by decide⟩

/-! ## Claim C7: a failed exam load leaves the prior exam in place
(`run_test_tab` and `load_default_exam`, `src/ui/app.py`
lines 162-216) -/

/-- A row of the questions table (`id, question, option_a..option_d`). -/
structure QuestionRow where
  id : String
  question : String
  option_a : String
  option_b : String
  option_c : String
  option_d : String
deriving DecidableEq

/-- A row of the answers table (`id, correct_answer`). -/
structure AnswerRow where
  id : String
  correct_answer : String
deriving DecidableEq

/-- The exam-related session state of the app: `questions_df` and
`answers_df`, each absent until loaded. -/
structure ExamState where
  questions_df : Option (List QuestionRow)
  answers_df : Option (List AnswerRow)
deriving DecidableEq

/-- The questions-upload handler of `run_test_tab`: `pd.read_csv` either
yields a table (then the session state is updated) or raises (then the
`except` branch shows the error and the state is untouched). -/
def handle_questions_upload (st : ExamState)
    (parsed : Except String (List QuestionRow)) : ExamState :=
  match parsed with
  | Except.ok df => { st with questions_df := some df }
  | Except.error _ => st

/-- The answers-upload handler of `run_test_tab`, same shape as the
questions handler. -/
def handle_answers_upload (st : ExamState)
    (parsed : Except String (List AnswerRow)) : ExamState :=
  match parsed with
  | Except.ok df => { st with answers_df := some df }
  | Except.error _ => st

/-- `load_default_exam`: `DataLoader.load_default_exam` returns a pair;
the session state is replaced only when both components are present. -/
def handle_default_load (st : ExamState)
    (loaded : Option (List QuestionRow) × Option (List AnswerRow)) :
    ExamState :=
  match loaded with
  | (some q, some a) => { questions_df := some q, answers_df := some a }
  | _ => st

/-- C7: a failed exam load — a questions upload that fails to parse, an
answers upload that fails to parse, or a default-exam load that does not
produce both tables — leaves the previously loaded exam state (questions
and answer key) exactly as it was before the attempt. -/
theorem failed_load_preserves_exam (st : ExamState) :
    (∀ e, handle_questions_upload st (Except.error e) = st) ∧
    (∀ e, handle_answers_upload st (Except.error e) = st) ∧
    (∀ oa, handle_default_load st (none, oa) = st) ∧
    (∀ oq, handle_default_load st (oq, none) = st) := by
  refine ⟨fun e => rfl, fun e => rfl, fun oa => rfl, fun oq => ?_⟩
  cases oq <;> rfl

def demoQuestionRow : QuestionRow :=
  { id := "Q1", question := "first question", option_a := "a1",
    option_b := "b1", option_c := "c1", option_d := "d1" }

def demoAnswerRow : AnswerRow :=
  { id := "Q1", correct_answer := "A" }

def demoExamState : ExamState :=
  { questions_df := some [demoQuestionRow],
    answers_df := some [demoAnswerRow] }

theorem failed_load_preserves_exam_witness :
    handle_questions_upload demoExamState (Except.error "SchemaError") =
      demoExamState :=
  (failed_load_preserves_exam demoExamState).1 "SchemaError"

/-! ## Claim C8: listModels distinguishes unreachable from empty -/

/-- The observable state of the local inference service: unreachable, or
reachable with a (possibly empty) list of installed models. -/
inductive ServiceState
  | unreachable
  | reachable (models : List String)
deriving DecidableEq

/-- Modelled from the spec: `OllamaModel.list_available_models` (the
module is not under `src/`) — fails with `ServiceUnavailableError` if
the inference service cannot be reached, and returns the (possibly
empty) model list when the service is reachable. -/
def list_available_models : ServiceState → Except String (List String)
  | ServiceState.unreachable => Except.error "ServiceUnavailableError"
  | ServiceState.reachable ms => Except.ok ms

/-- C8: listModels fails with ServiceUnavailableError exactly when the
service is unreachable, and a reachable service with zero models yields
the empty sequence, not an error, so the two conditions are always
distinguishable by the caller. -/
theorem list_models_distinguishes :
    (∀ ms, list_available_models (ServiceState.reachable ms) =
      Except.ok ms) ∧
    (∀ s, (∃ e, list_available_models s = Except.error e) ↔
      s = ServiceState.unreachable) ∧
    list_available_models (ServiceState.reachable []) = Except.ok [] := by
  refine ⟨fun ms => rfl, fun s => ?_, rfl⟩
  cases s with
  | unreachable => simp [list_available_models]
  | reachable ms => simp [list_available_models]

theorem list_models_distinguishes_witness :
    list_available_models (ServiceState.reachable []) =
      Except.ok ([] : List String) :=
  list_models_distinguishes.2.2

/-! ## Claim C10: displaying a result needs a non-empty result list
(`display_current_results`, `src/ui/app.py` lines 322-329) -/

/-- Python division: raises ZeroDivisionError when the divisor is 0. -/
def pyDiv (a b : Rat) : Except String Rat :=
  if b = 0 then Except.error "ZeroDivisionError" else Except.ok (a / b)

/-- The summary metrics of `display_current_results`: correct count,
total count, and the average response time computed as
`sum(r['response_time'] for r in results) / len(results)`. -/
def display_summary (results : List QuestionResult) :
    Except String (Nat × Nat × Rat) :=
  (pyDiv ((results.map (fun r => r.response_time)).sum)
      (results.length : Rat)).map
    (fun avg => (results.countP (fun r => r.is_correct), results.length, avg))

/-- C10: the displayed average response time divides by the number of
QuestionResults, so the display raises ZeroDivisionError for a run with
zero results and is total exactly on runs with at least one question. -/
theorem display_requires_results (results : List QuestionResult) :
    (results = [] → display_summary results =
      Except.error "ZeroDivisionError") ∧
    (results ≠ [] → display_summary results =
      Except.ok (results.countP (fun r => r.is_correct), results.length,
        (results.map (fun r => r.response_time)).sum /
          (results.length : Rat))) := by
  constructor
  · intro he
    subst he
    rfl
  · intro hne
    have hlen : (results.length : Rat) ≠ 0 := by
      simp only [ne_eq, Nat.cast_eq_zero, List.length_eq_zero]
      exact hne
    unfold display_summary pyDiv
    rw [if_neg hlen]
    rfl

def demoDisplayResults : List QuestionResult :=
  [mkDemoResult "Q1" true, mkDemoResult "Q2" false]

theorem display_requires_results_witness :
    display_summary [] = Except.error "ZeroDivisionError" ∧
    display_summary demoDisplayResults =
      Except.ok (demoDisplayResults.countP (fun r => r.is_correct),
        demoDisplayResults.length,
        (demoDisplayResults.map (fun r => r.response_time)).sum /
          (demoDisplayResults.length : Rat)) :=
  ⟨(display_requires_results []).1 rfl,
   (display_requires_results demoDisplayResults).2 (by decide)⟩
